import Mathlib

/-!
Shallow embedding of the rasterization/encoding core of `src/app.py`
(Arduino 8×8 LED matrix controller).

Matrices are embedded as `List (List Int)` (numpy 2-D integer arrays /
Python lists of lists).  Python integer arithmetic is exact, so `Int`/`Nat`
are faithful carriers.  The float threshold in `image_to_8x8`
(`arr / 255.0 < 0.7`) is modelled over `ℚ`; every attainable pixel value
0..255 is far from the 0.7 boundary relative to float32/float64 rounding
error, so the rational comparison agrees with the float one on all inputs.
-/

namespace MatrixApp

/-- Cell access `m[r][c]` with numpy-style indexing; out-of-range reads
default to `0` (never exercised under the shape hypotheses we use). -/
def cell (m : List (List Int)) (r c : Nat) : Int :=
  (m.getD r []).getD c 0

/-- `np.array(m).shape == (rows, cols)` for a list-of-lists input. -/
def HasShape (m : List (List Int)) (rows cols : Nat) : Prop :=
  m.length = rows ∧ ∀ row ∈ m, row.length = cols

instance (m : List (List Int)) (rows cols : Nat) : Decidable (HasShape m rows cols) := by
  unfold HasShape; infer_instance

/-- A matrix all of whose entries are 0 or 1 (the `BinaryMatrix` data model). -/
def IsBinary (m : List (List Int)) : Prop :=
  ∀ row ∈ m, ∀ x ∈ row, x = 0 ∨ x = 1

instance (m : List (List Int)) : Decidable (IsBinary m) := by
  unfold IsBinary; infer_instance

/-- One row byte of `send_frame` (src/app.py lines 37-44):
`byte = 0; for c in range(8): if matrix[r, c]: byte |= 1 << (7 - c)`.
Python truthiness of an integer cell is `cell ≠ 0`. -/
def rowByte (row : List Int) : Nat :=
  (List.range 8).foldl
    (fun byte c => if row.getD c 0 ≠ 0 then byte ||| (1 <<< (7 - c)) else byte) 0

/-- The encoding part of `send_frame` (src/app.py lines 30-44): the shape
check `matrix.shape != (8, 8)` raises `ValueError("Matrix must be 8x8")`,
modelled as `Except.error`; otherwise the 9-byte frame
`[0xAA] + [rowByte r for r in range(8)]` is produced. -/
def send_frame (matrix : List (List Int)) : Except String (List Nat) :=
  if HasShape matrix 8 8 then
    Except.ok (0xAA :: (List.range 8).map (fun r => rowByte (matrix.getD r [])))
  else
    Except.error "Matrix must be 8x8"

/-- Conceptual decoder from the spec (§8 "inverse bit-unpack with the same
flip"): cell (r, c) is read back from bit `7 - c` of row byte `r`
(frame byte `r + 1`, after the 0xAA header). -/
def decode_frame (frame : List Nat) : List (List Int) :=
  (List.range 8).map (fun r =>
    (List.range 8).map (fun c =>
      if (frame.getD (r + 1) 0).testBit (7 - c) then (1 : Int) else 0))

/-- Replace every nonzero cell by 1 (binarization of an integer matrix). -/
def binarize (m : List (List Int)) : List (List Int) :=
  m.map (fun row => row.map (fun x => if x ≠ 0 then (1 : Int) else 0))

/-- `downsample_16_to_8` (src/app.py lines 141-151): each output cell is 1
iff the sum of its 2×2 source block `mat16[2r:2r+2, 2c:2c+2]` is > 0. -/
def downsample_16_to_8 (mat16 : List (List Int)) : List (List Int) :=
  (List.range 8).map (fun r =>
    (List.range 8).map (fun c =>
      if cell mat16 (2 * r) (2 * c) + cell mat16 (2 * r) (2 * c + 1) +
         cell mat16 (2 * r + 1) (2 * c) + cell mat16 (2 * r + 1) (2 * c + 1) > 0
      then (1 : Int) else 0))

/-- One thresholded 8-wide window of the scaled text strip, starting at
column `x` (src/app.py lines 79-81): `crop = img.crop((x, 0, x + 8, height));
(np.array(crop) > 128).astype(int)`.  `px r c` is the grayscale intensity of
the scaled strip at row `r`, column `c` (numpy row-major order). -/
def thresholdFrame (px : Nat → Nat → Nat) (x height : Nat) : List (List Int) :=
  (List.range height).map (fun r =>
    (List.range 8).map (fun c =>
      if px r (x + c) > 128 then (1 : Int) else 0))

/-- The windowing loop of `text_to_frames` (src/app.py lines 77-81):
`for x in range(0, img.width - 8 + 1)`.  Python's `range` is empty when
`width - 8 + 1 ≤ 0`, which truncated `Nat` subtraction `width - 7`
reproduces exactly. -/
def windowFrames (width : Nat) (px : Nat → Nat → Nat) (height : Nat) :
    List (List (List Int)) :=
  (List.range (width - 7)).map (fun x => thresholdFrame px x height)

/-- `text_to_frames` (src/app.py lines 53-86).  The PIL steps (default font
measurement, strip rendering, bilinear vertical rescale) are external
library calls; they are abstracted by their outputs: `w` is the measured
bounding-box width `bbox[2] - bbox[0]` (PIL bounding boxes always give
`w ≥ 0`, hence `Nat`), and `px` gives the pixel intensities of the scaled
strip.  The strip canvas has width `w + 8` (line 68, `+8` trailing padding),
preserved by the rescale (line 74).  Line 55: empty text returns `[]`.
Lines 83-84: if any frames were produced, a copy of the last is appended. -/
def text_to_frames (text : String) (w : Nat) (px : Nat → Nat → Nat)
    (height : Nat := 8) : List (List (List Int)) :=
  if text = "" then []
  else
    let frames := windowFrames (w + 8) px height
    if hne : frames ≠ [] then frames ++ [frames.getLast hne] else frames

/-- `image_to_8x8` (src/app.py lines 104-122) after its external PIL steps:
`img.convert("L")` and the bilinear `img.resize((8, 8))` are library calls
whose output — the 8×8 grayscale array, entries 0..255 — is the argument
`arr`.  The function itself normalizes by 255 and thresholds:
`(arr / 255.0 < 0.7).astype(int)`. -/
def image_to_8x8 (arr : Nat → Nat → Nat) : List (List Int) :=
  (List.range 8).map (fun r =>
    (List.range 8).map (fun c =>
      if ((arr r c : ℚ) / 255 < 7 / 10) then (1 : Int) else 0))

/-! ### Helper lemmas -/

/-- `rowByte` restricted to the booleans it actually depends on. -/
def packBits (bits : List Bool) : Nat :=
  (List.range 8).foldl
    (fun byte c => if bits.getD c false then byte ||| (1 <<< (7 - c)) else byte) 0

theorem packBits_testBit_all : ∀ v0 v1 v2 v3 v4 v5 v6 v7 : Bool,
    ((packBits [v0, v1, v2, v3, v4, v5, v6, v7]).testBit 7 = v0) ∧
    ((packBits [v0, v1, v2, v3, v4, v5, v6, v7]).testBit 6 = v1) ∧
    ((packBits [v0, v1, v2, v3, v4, v5, v6, v7]).testBit 5 = v2) ∧
    ((packBits [v0, v1, v2, v3, v4, v5, v6, v7]).testBit 4 = v3) ∧
    ((packBits [v0, v1, v2, v3, v4, v5, v6, v7]).testBit 3 = v4) ∧
    ((packBits [v0, v1, v2, v3, v4, v5, v6, v7]).testBit 2 = v5) ∧
    ((packBits [v0, v1, v2, v3, v4, v5, v6, v7]).testBit 1 = v6) ∧
    ((packBits [v0, v1, v2, v3, v4, v5, v6, v7]).testBit 0 = v7) := by
  decide

theorem rowByte_eq_packBits (row : List Int) :
    rowByte row = packBits
      [decide (row.getD 0 0 ≠ 0), decide (row.getD 1 0 ≠ 0),
       decide (row.getD 2 0 ≠ 0), decide (row.getD 3 0 ≠ 0),
       decide (row.getD 4 0 ≠ 0), decide (row.getD 5 0 ≠ 0),
       decide (row.getD 6 0 ≠ 0), decide (row.getD 7 0 ≠ 0)] := by
  simp [rowByte, packBits, List.range_succ, decide_eq_true_eq]

theorem rowByte_testBit (row : List Int) (c : Nat) (hc : c < 8) :
    (rowByte row).testBit (7 - c) = decide (row.getD c 0 ≠ 0) := by
  rw [rowByte_eq_packBits]
  interval_cases c
  · exact (packBits_testBit_all _ _ _ _ _ _ _ _).1
  · exact (packBits_testBit_all _ _ _ _ _ _ _ _).2.1
  · exact (packBits_testBit_all _ _ _ _ _ _ _ _).2.2.1
  · exact (packBits_testBit_all _ _ _ _ _ _ _ _).2.2.2.1
  · exact (packBits_testBit_all _ _ _ _ _ _ _ _).2.2.2.2.1
  · exact (packBits_testBit_all _ _ _ _ _ _ _ _).2.2.2.2.2.1
  · exact (packBits_testBit_all _ _ _ _ _ _ _ _).2.2.2.2.2.2.1
  · exact (packBits_testBit_all _ _ _ _ _ _ _ _).2.2.2.2.2.2.2

theorem getD_range_map {α : Type} (f : Nat → α) (n i : Nat) (d : α) (h : i < n) :
    ((List.range n).map f).getD i d = f i := by
  have h' : i < (List.map f (List.range n)).length := by simpa using h
  rw [List.getD_eq_getElem _ _ h', List.getElem_map, List.getElem_range]

theorem row_mem {m : List (List Int)} {rows cols : Nat}
    (hs : HasShape m rows cols) {r : Nat} (hr : r < rows) :
    m.getD r [] ∈ m := by
  have hrlen : r < m.length := by rw [hs.1]; exact hr
  rw [List.getD_eq_getElem m [] hrlen]
  exact List.getElem_mem hrlen

theorem row_length {m : List (List Int)} {rows cols : Nat}
    (hs : HasShape m rows cols) {r : Nat} (hr : r < rows) :
    (m.getD r []).length = cols :=
  hs.2 _ (row_mem hs hr)

theorem cell_zero_or_one {m : List (List Int)} {rows cols : Nat}
    (hs : HasShape m rows cols) (hb : IsBinary m) {r c : Nat}
    (hr : r < rows) (hc : c < cols) :
    cell m r c = 0 ∨ cell m r c = 1 := by
  have hmem : m.getD r [] ∈ m := row_mem hs hr
  have hclen : c < (m.getD r []).length := by rw [row_length hs hr]; exact hc
  have hcm : (m.getD r []).getD c 0 ∈ m.getD r [] := by
    rw [List.getD_eq_getElem _ 0 hclen]
    exact List.getElem_mem hclen
  exact hb _ hmem _ hcm

/-! ### Claims -/

/-- **C1**: for every 8×8 binary matrix, `send_frame`'s packing step produces
exactly 9 bytes — a fixed 0xAA header followed by 8 row bytes in
top-to-bottom order, where row byte `r` has bit `7 - c` set iff cell
`(r, c)` is lit; in particular the all-zero matrix yields 8 zero bytes after
the header and the all-one matrix yields 0xFF for each row byte. -/
theorem C1_encoder_packing :
    (∀ m : List (List Int), HasShape m 8 8 → IsBinary m →
      ∃ frame, send_frame m = Except.ok frame ∧
        frame.length = 9 ∧
        frame.getD 0 0 = 0xAA ∧
        ∀ r, r < 8 → ∀ c, c < 8 →
          ((frame.getD (r + 1) 0).testBit (7 - c) = true ↔ cell m r c = 1)) ∧
    send_frame (List.replicate 8 (List.replicate 8 0)) =
      Except.ok (0xAA :: List.replicate 8 0) ∧
    send_frame (List.replicate 8 (List.replicate 8 1)) =
      Except.ok (0xAA :: List.replicate 8 0xFF) := by
  refine ⟨?_, rfl, rfl⟩
  intro m hs hb
  rw [send_frame, if_pos hs]
  refine ⟨_, rfl, by simp, rfl, ?_⟩
  intro r hr c hc
  rw [List.getD_cons_succ, getD_range_map _ _ _ _ hr, rowByte_testBit _ c hc]
  rw [decide_eq_true_eq, cell]
  rcases cell_zero_or_one hs hb hr hc with h0 | h1
  · rw [cell] at h0; rw [h0]; decide
  · rw [cell] at h1; rw [h1]; decide

/-- Witness for C1: instantiating the universal part at the matrix whose only
lit cell is (0, 0). -/
theorem C1_encoder_packing_witness :
    ∃ frame, send_frame ([1, 0, 0, 0, 0, 0, 0, 0] ::
        List.replicate 7 (List.replicate 8 0)) = Except.ok frame ∧
      frame.length = 9 ∧
      frame.getD 0 0 = 0xAA ∧
      ∀ r, r < 8 → ∀ c, c < 8 →
        ((frame.getD (r + 1) 0).testBit (7 - c) = true ↔
          cell ([1, 0, 0, 0, 0, 0, 0, 0] ::
            List.replicate 7 (List.replicate 8 0)) r c = 1) :=
  C1_encoder_packing.1 _ (by decide) (by decide)

/-- **C2**: `send_frame` rejects (raises, modelled as `Except.error`) every
input that is not exactly 8 rows × 8 columns; no byte frame is produced. -/
theorem C2_shape_error (m : List (List Int)) (h : ¬ HasShape m 8 8) :
    send_frame m = Except.error "Matrix must be 8x8" := by
  rw [send_frame, if_neg h]

/-- Witness for C2: a 4×4 input is rejected. -/
theorem C2_shape_error_witness :
    send_frame (List.replicate 4 (List.replicate 4 0)) =
      Except.error "Matrix must be 8x8" :=
  C2_shape_error _ (by decide)

theorem HasShape_binarize (m : List (List Int)) (rows cols : Nat) :
    HasShape (binarize m) rows cols ↔ HasShape m rows cols := by
  simp [HasShape, binarize, List.mem_map]

theorem getD_map_rows (f : List Int → List Int) (hf : f [] = [])
    (m : List (List Int)) (r : Nat) :
    (m.map f).getD r [] = f (m.getD r []) := by
  by_cases h : r < m.length
  · rw [List.getD_eq_getElem _ _ (by simpa using h), List.getElem_map,
      List.getD_eq_getElem _ _ h]
  · rw [List.getD_eq_default _ _ (by simpa using Nat.le_of_not_lt h),
      List.getD_eq_default _ _ (Nat.le_of_not_lt h), hf]

theorem binarize_entry_ne (row : List Int) (c : Nat) :
    ((row.map (fun x => if x ≠ 0 then (1 : Int) else 0)).getD c 0 ≠ 0) ↔
      (row.getD c 0 ≠ 0) := by
  by_cases h : c < row.length
  · rw [List.getD_eq_getElem _ _ (by simpa using h), List.getElem_map,
      List.getD_eq_getElem _ _ h]
    by_cases hx : row.get ⟨c, h⟩ = 0 <;> simp [hx]
  · rw [List.getD_eq_default _ _ (by simpa using Nat.le_of_not_lt h),
      List.getD_eq_default _ _ (Nat.le_of_not_lt h)]

theorem rowByte_binarize (row : List Int) :
    rowByte (row.map (fun x => if x ≠ 0 then (1 : Int) else 0)) = rowByte row := by
  have h : ∀ c, decide ((row.map (fun x => if x ≠ 0 then (1 : Int) else 0)).getD c 0 ≠ 0)
      = decide (row.getD c 0 ≠ 0) :=
    fun c => decide_eq_decide.mpr (binarize_entry_ne row c)
  rw [rowByte_eq_packBits, rowByte_eq_packBits, h 0, h 1, h 2, h 3, h 4, h 5, h 6, h 7]

/-- **C10**: the encoder's output depends only on which cells are nonzero:
encoding any integer matrix gives the same result as encoding its
binarization (every nonzero cell replaced by 1). -/
theorem C10_encode_binarize (m : List (List Int)) :
    send_frame m = send_frame (binarize m) := by
  by_cases hs : HasShape m 8 8
  · rw [send_frame, send_frame, if_pos hs, if_pos ((HasShape_binarize m 8 8).mpr hs)]
    have h : ∀ r, rowByte ((binarize m).getD r []) = rowByte (m.getD r []) := by
      intro r
      rw [binarize, getD_map_rows _ rfl, rowByte_binarize]
    simp only [h]
  · rw [send_frame, send_frame, if_neg hs,
      if_neg (fun h => hs ((HasShape_binarize m 8 8).mp h))]

theorem decode_frame_cell (frame : List Nat) (r c : Nat) (hr : r < 8) (hc : c < 8) :
    cell (decode_frame frame) r c =
      if (frame.getD (r + 1) 0).testBit (7 - c) then 1 else 0 := by
  rw [cell, decode_frame, getD_range_map _ _ _ _ hr, getD_range_map _ _ _ _ hc]

theorem decode_frame_shape (frame : List Nat) : HasShape (decode_frame frame) 8 8 := by
  constructor
  · simp [decode_frame]
  · intro row hrow
    rw [decode_frame] at hrow
    obtain ⟨a, ha, rfl⟩ := List.mem_map.mp hrow
    simp

theorem matrix_ext {A B : List (List Int)} {rows cols : Nat}
    (hA : HasShape A rows cols) (hB : HasShape B rows cols)
    (h : ∀ r, r < rows → ∀ c, c < cols → cell A r c = cell B r c) : A = B := by
  apply List.ext_getElem
  · rw [hA.1, hB.1]
  · intro r h1 h2
    have hr8 : r < rows := by rw [← hA.1]; exact h1
    apply List.ext_getElem
    · rw [hA.2 _ (List.getElem_mem h1), hB.2 _ (List.getElem_mem h2)]
    · intro c hc1 hc2
      have hc8 : c < cols := by
        rw [← hA.2 _ (List.getElem_mem h1)]; exact hc1
      have e1 : cell A r c = A[r][c] := by
        rw [cell, List.getD_eq_getElem A [] h1, List.getD_eq_getElem _ 0 hc1]
      have e2 : cell B r c = B[r][c] := by
        rw [cell, List.getD_eq_getElem B [] h2, List.getD_eq_getElem _ 0 hc2]
      have := h r hr8 c hc8
      rw [e1, e2] at this
      exact this

/-- **C4**: encoding a valid 8×8 binary matrix to the 9-byte wire frame and
reading bit `7 - c` of row byte `r` back as cell `(r, c)` recovers the
original matrix exactly. -/
theorem C4_roundtrip (m : List (List Int)) (hs : HasShape m 8 8) (hb : IsBinary m)
    (frame : List Nat) (hf : send_frame m = Except.ok frame) :
    decode_frame frame = m := by
  rw [send_frame, if_pos hs] at hf
  have hfr : frame = 0xAA :: (List.range 8).map (fun r => rowByte (m.getD r [])) :=
    (Except.ok.inj hf).symm
  subst hfr
  apply matrix_ext (decode_frame_shape _) hs
  intro r hr c hc
  rw [decode_frame_cell _ _ _ hr hc, List.getD_cons_succ,
    getD_range_map _ _ _ _ hr, rowByte_testBit _ c hc]
  rcases cell_zero_or_one hs hb hr hc with h0 | h1
  · have h0x : (m.getD r []).getD c 0 = 0 := h0
    rw [if_neg (by rw [h0x]; decide)]
    exact h0.symm
  · have h1x : (m.getD r []).getD c 0 = 1 := h1
    rw [if_pos (by rw [h1x]; decide)]
    exact h1.symm

/-- Witness for C4: round-trip at the matrix whose only lit cell is (0, 0). -/
theorem C4_roundtrip_witness :
    decode_frame [0xAA, 0x80, 0, 0, 0, 0, 0, 0, 0] =
      ([1, 0, 0, 0, 0, 0, 0, 0] :: List.replicate 7 (List.replicate 8 0)) :=
  C4_roundtrip _ (by decide) (by decide) _ rfl

theorem downsample_cell (m : List (List Int)) (r c : Nat) (hr : r < 8) (hc : c < 8) :
    cell (downsample_16_to_8 m) r c =
      if cell m (2 * r) (2 * c) + cell m (2 * r) (2 * c + 1) +
         cell m (2 * r + 1) (2 * c) + cell m (2 * r + 1) (2 * c + 1) > 0
      then 1 else 0 := by
  rw [cell, downsample_16_to_8, getD_range_map _ _ _ _ hr, getD_range_map _ _ _ _ hc]

/-- **C3**: for every 16×16 binary matrix, `downsample_16_to_8` returns an
8×8 matrix whose cell (r, c) is 1 iff at least one of the four cells of the
non-overlapping 2×2 block `m[2r:2r+2, 2c:2c+2]` is 1, and 0 otherwise. -/
theorem C3_downsample (m : List (List Int)) (hs : HasShape m 16 16) (hb : IsBinary m) :
    HasShape (downsample_16_to_8 m) 8 8 ∧
    ∀ r, r < 8 → ∀ c, c < 8 →
      (cell (downsample_16_to_8 m) r c = 1 ↔
        (cell m (2 * r) (2 * c) = 1 ∨ cell m (2 * r) (2 * c + 1) = 1 ∨
         cell m (2 * r + 1) (2 * c) = 1 ∨ cell m (2 * r + 1) (2 * c + 1) = 1)) ∧
      (cell (downsample_16_to_8 m) r c = 0 ↔
        ¬ (cell m (2 * r) (2 * c) = 1 ∨ cell m (2 * r) (2 * c + 1) = 1 ∨
           cell m (2 * r + 1) (2 * c) = 1 ∨ cell m (2 * r + 1) (2 * c + 1) = 1)) := by
  constructor
  · constructor
    · simp [downsample_16_to_8]
    · intro row hrow
      rw [downsample_16_to_8] at hrow
      obtain ⟨a, ha, rfl⟩ := List.mem_map.mp hrow
      simp
  · intro r hr c hc
    have ha := cell_zero_or_one hs hb (show 2 * r < 16 by omega) (show 2 * c < 16 by omega)
    have hbx := cell_zero_or_one hs hb (show 2 * r < 16 by omega)
      (show 2 * c + 1 < 16 by omega)
    have hcx := cell_zero_or_one hs hb (show 2 * r + 1 < 16 by omega)
      (show 2 * c < 16 by omega)
    have hdx := cell_zero_or_one hs hb (show 2 * r + 1 < 16 by omega)
      (show 2 * c + 1 < 16 by omega)
    rw [downsample_cell m r c hr hc]
    by_cases hp : cell m (2 * r) (2 * c) + cell m (2 * r) (2 * c + 1) +
        cell m (2 * r + 1) (2 * c) + cell m (2 * r + 1) (2 * c + 1) > 0
    · rw [if_pos hp]
      constructor <;> constructor <;> intro h <;> omega
    · rw [if_neg hp]
      constructor <;> constructor <;> intro h <;> omega

/-- Witness for C3: a 16×16 binary matrix with a single lit cell at (0, 0),
whose downsample lights exactly cell (0, 0). -/
theorem C3_downsample_witness :
    HasShape (downsample_16_to_8
      ((1 :: List.replicate 15 0) :: List.replicate 15 (List.replicate 16 0))) 8 8 ∧
    ∀ r, r < 8 → ∀ c, c < 8 →
      (cell (downsample_16_to_8
          ((1 :: List.replicate 15 0) :: List.replicate 15 (List.replicate 16 0))) r c = 1 ↔
        (cell ((1 :: List.replicate 15 0) :: List.replicate 15 (List.replicate 16 0))
            (2 * r) (2 * c) = 1 ∨
         cell ((1 :: List.replicate 15 0) :: List.replicate 15 (List.replicate 16 0))
            (2 * r) (2 * c + 1) = 1 ∨
         cell ((1 :: List.replicate 15 0) :: List.replicate 15 (List.replicate 16 0))
            (2 * r + 1) (2 * c) = 1 ∨
         cell ((1 :: List.replicate 15 0) :: List.replicate 15 (List.replicate 16 0))
            (2 * r + 1) (2 * c + 1) = 1)) ∧
      (cell (downsample_16_to_8
          ((1 :: List.replicate 15 0) :: List.replicate 15 (List.replicate 16 0))) r c = 0 ↔
        ¬ (cell ((1 :: List.replicate 15 0) :: List.replicate 15 (List.replicate 16 0))
            (2 * r) (2 * c) = 1 ∨
           cell ((1 :: List.replicate 15 0) :: List.replicate 15 (List.replicate 16 0))
            (2 * r) (2 * c + 1) = 1 ∨
           cell ((1 :: List.replicate 15 0) :: List.replicate 15 (List.replicate 16 0))
            (2 * r + 1) (2 * c) = 1 ∨
           cell ((1 :: List.replicate 15 0) :: List.replicate 15 (List.replicate 16 0))
            (2 * r + 1) (2 * c + 1) = 1)) :=
  C3_downsample _ (by decide) (by decide)

theorem thresholdFrame_cell (px : Nat → Nat → Nat) (x r c : Nat)
    (hr : r < 8) (hc : c < 8) :
    cell (thresholdFrame px x 8) r c = if px r (x + c) > 128 then 1 else 0 := by
  rw [cell, thresholdFrame, getD_range_map _ _ _ _ hr, getD_range_map _ _ _ _ hc]

theorem windowFrames_length (width : Nat) (px : Nat → Nat → Nat) (height : Nat) :
    (windowFrames width px height).length = width - 7 := by
  simp [windowFrames]

theorem windowFrames_ne_nil (w : Nat) (px : Nat → Nat → Nat) (height : Nat) :
    windowFrames (w + 8) px height ≠ [] := by
  intro h
  have := windowFrames_length (w + 8) px height
  rw [h] at this
  simp at this

theorem getLast_eq_getD {α : Type} (l : List α) (h : l ≠ []) (d : α) :
    l.getLast h = l.getD (l.length - 1) d := by
  rw [List.getLast_eq_getElem,
    List.getD_eq_getElem _ d (Nat.sub_lt (List.length_pos.mpr h) one_pos)]

theorem text_to_frames_eq (text : String) (w : Nat) (px : Nat → Nat → Nat)
    (height : Nat) (ht : text ≠ "") (hne : windowFrames (w + 8) px height ≠ []) :
    text_to_frames text w px height =
      windowFrames (w + 8) px height ++
        [(windowFrames (w + 8) px height).getLast hne] := by
  rw [text_to_frames, if_neg ht]
  exact dif_pos hne

/-- **C5**: for a scaled strip of width ≥ 8, the windowing step slides an
8-wide window one pixel at a time from x = 0 to x = width − 8 inclusive,
yielding exactly width − 7 frames, and frame x has cell (r, c) lit iff the
strip pixel at row r, column x + c has intensity > 128. -/
theorem C5_windowing (width : Nat) (px : Nat → Nat → Nat) (h8 : 8 ≤ width) :
    (windowFrames width px 8).length = width - 7 ∧
    ∀ x, x ≤ width - 8 →
      (windowFrames width px 8).getD x [] = thresholdFrame px x 8 ∧
      ∀ r, r < 8 → ∀ c, c < 8 →
        (cell (thresholdFrame px x 8) r c = 1 ↔ px r (x + c) > 128) ∧
        (cell (thresholdFrame px x 8) r c = 0 ↔ ¬ px r (x + c) > 128) := by
  refine ⟨windowFrames_length width px 8, ?_⟩
  intro x hx
  have hx' : x < width - 7 := by omega
  refine ⟨by rw [windowFrames]; exact getD_range_map _ _ _ _ hx', ?_⟩
  intro r hr c hc
  rw [thresholdFrame_cell px x r c hr hc]
  by_cases hp : px r (x + c) > 128
  · rw [if_pos hp]
    constructor <;> constructor <;> intro h <;> omega
  · rw [if_neg hp]
    constructor <;> constructor <;> intro h <;> omega

/-- Witness for C5: a width-9 strip of constant intensity 200 yields 2
frames, every cell lit. -/
theorem C5_windowing_witness :
    (windowFrames 9 (fun _ _ => 200) 8).length = 9 - 7 ∧
    ∀ x, x ≤ 9 - 8 →
      (windowFrames 9 (fun _ _ => 200) 8).getD x [] =
        thresholdFrame (fun _ _ => 200) x 8 ∧
      ∀ r, r < 8 → ∀ c, c < 8 →
        (cell (thresholdFrame (fun _ _ => 200) x 8) r c = 1 ↔
          (fun (_ _ : Nat) => (200 : Nat)) r (x + c) > 128) ∧
        (cell (thresholdFrame (fun _ _ => 200) x 8) r c = 0 ↔
          ¬ (fun (_ _ : Nat) => (200 : Nat)) r (x + c) > 128) :=
  C5_windowing 9 (fun _ _ => 200) (by decide)

/-- **C6**: whenever the windowing step produced at least one frame, exactly
one extra copy of the last windowed frame is appended, so the returned
sequence is non-empty (length ≥ 2) and its last two frames are equal. -/
theorem C6_pause_frame (text : String) (w : Nat) (px : Nat → Nat → Nat)
    (ht : text ≠ "") (hne : windowFrames (w + 8) px 8 ≠ []) :
    text_to_frames text w px 8 =
      windowFrames (w + 8) px 8 ++
        [(windowFrames (w + 8) px 8).getD ((windowFrames (w + 8) px 8).length - 1) []] ∧
    2 ≤ (text_to_frames text w px 8).length ∧
    (text_to_frames text w px 8).getD ((text_to_frames text w px 8).length - 1) [] =
      (text_to_frames text w px 8).getD ((text_to_frames text w px 8).length - 2) [] := by
  have key := text_to_frames_eq text w px 8 ht hne
  rw [getLast_eq_getD _ hne []] at key
  have hpos : 0 < (windowFrames (w + 8) px 8).length := List.length_pos.mpr hne
  refine ⟨key, ?_, ?_⟩
  · rw [key, List.length_append]
    simpa using hpos
  · rw [key, List.length_append]
    have hL1 : (windowFrames (w + 8) px 8).length + List.length
        [(windowFrames (w + 8) px 8).getD ((windowFrames (w + 8) px 8).length - 1) []]
        - 1 = (windowFrames (w + 8) px 8).length := by
      simp
    have hL2 : (windowFrames (w + 8) px 8).length + List.length
        [(windowFrames (w + 8) px 8).getD ((windowFrames (w + 8) px 8).length - 1) []]
        - 2 = (windowFrames (w + 8) px 8).length - 1 := by
      simp
    rw [hL1, hL2, List.getD_append_right _ _ _ _ (Nat.le_refl _),
      List.getD_append _ _ _ _ (by omega)]
    simp

/-- Witness for C6: text "A" with a width-0 bounding box and an all-dark
strip. -/
theorem C6_pause_frame_witness :
    text_to_frames "A" 0 (fun _ _ => 0) 8 =
      windowFrames (0 + 8) (fun _ _ => 0) 8 ++
        [(windowFrames (0 + 8) (fun _ _ => 0) 8).getD
          ((windowFrames (0 + 8) (fun _ _ => 0) 8).length - 1) []] ∧
    2 ≤ (text_to_frames "A" 0 (fun _ _ => 0) 8).length ∧
    (text_to_frames "A" 0 (fun _ _ => 0) 8).getD
        ((text_to_frames "A" 0 (fun _ _ => 0) 8).length - 1) [] =
      (text_to_frames "A" 0 (fun _ _ => 0) 8).getD
        ((text_to_frames "A" 0 (fun _ _ => 0) 8).length - 2) [] :=
  C6_pause_frame "A" 0 (fun _ _ => 0) (by decide) (windowFrames_ne_nil 0 _ 8)

/-- **C8**: `text_to_frames` on the empty string returns the empty frame
sequence. -/
theorem C8_empty_text (w : Nat) (px : Nat → Nat → Nat) (height : Nat) :
    text_to_frames "" w px height = [] := by
  rw [text_to_frames, if_pos rfl]

/-- **C9**: for every non-empty text (its measured bounding-box width `w`
being a natural number), the rendered strip has width `w + 8 ≥ 8`, so the
windowing loop yields at least the frame at x = 0, the pause frame is
appended, and the result has at least 2 frames. -/
theorem C9_min_two_frames (text : String) (w : Nat) (px : Nat → Nat → Nat)
    (ht : text ≠ "") : 2 ≤ (text_to_frames text w px 8).length := by
  have hne := windowFrames_ne_nil w px 8
  rw [text_to_frames_eq text w px 8 ht hne, List.length_append]
  have hpos : 0 < (windowFrames (w + 8) px 8).length := List.length_pos.mpr hne
  simpa using hpos

/-- Witness for C9: the single-character text "A". -/
theorem C9_min_two_frames_witness :
    2 ≤ (text_to_frames "A" 0 (fun _ _ => 0) 8).length :=
  C9_min_two_frames "A" 0 (fun _ _ => 0) (by decide)

/-- **C7**: `image_to_8x8` lights a cell iff its normalized intensity
(pixel value over 255) is strictly below 0.7; consequently the all-white
(255) image maps to the all-zero matrix and the all-black (0) image to the
all-one matrix (bilinear resizing keeps a constant image constant). -/
theorem C7_image_threshold :
    (∀ arr : Nat → Nat → Nat, ∀ r, r < 8 → ∀ c, c < 8 →
      ((cell (image_to_8x8 arr) r c = 1 ↔ (arr r c : ℚ) / 255 < 7 / 10) ∧
       (cell (image_to_8x8 arr) r c = 0 ↔ ¬ (arr r c : ℚ) / 255 < 7 / 10))) ∧
    (∀ arr : Nat → Nat → Nat, (∀ r c, arr r c = 255) →
      image_to_8x8 arr = List.replicate 8 (List.replicate 8 0)) ∧
    (∀ arr : Nat → Nat → Nat, (∀ r c, arr r c = 0) →
      image_to_8x8 arr = List.replicate 8 (List.replicate 8 1)) := by
  have hcell : ∀ (arr : Nat → Nat → Nat) r c, r < 8 → c < 8 →
      cell (image_to_8x8 arr) r c =
        if (arr r c : ℚ) / 255 < 7 / 10 then 1 else 0 := by
    intro arr r c hr hc
    rw [cell, image_to_8x8, getD_range_map _ _ _ _ hr, getD_range_map _ _ _ _ hc]
  refine ⟨?_, ?_, ?_⟩
  · intro arr r hr c hc
    rw [hcell arr r c hr hc]
    by_cases hp : (arr r c : ℚ) / 255 < 7 / 10
    · rw [if_pos hp]
      constructor <;> constructor <;> intro h
      · exact hp
      · rfl
      · exact absurd h one_ne_zero
      · exact absurd hp h
    · rw [if_neg hp]
      constructor <;> constructor <;> intro h
      · exact absurd h.symm one_ne_zero
      · exact absurd h hp
      · exact hp
      · rfl
  · intro arr harr
    apply List.eq_replicate_iff.mpr
    refine ⟨by simp [image_to_8x8], ?_⟩
    intro row hrow
    rw [image_to_8x8] at hrow
    obtain ⟨r, hr, rfl⟩ := List.mem_map.mp hrow
    apply List.eq_replicate_iff.mpr
    refine ⟨by simp, ?_⟩
    intro x hx
    obtain ⟨c, hc, rfl⟩ := List.mem_map.mp hx
    rw [harr, if_neg (by norm_num)]
  · intro arr harr
    apply List.eq_replicate_iff.mpr
    refine ⟨by simp [image_to_8x8], ?_⟩
    intro row hrow
    rw [image_to_8x8] at hrow
    obtain ⟨r, hr, rfl⟩ := List.mem_map.mp hrow
    apply List.eq_replicate_iff.mpr
    refine ⟨by simp, ?_⟩
    intro x hx
    obtain ⟨c, hc, rfl⟩ := List.mem_map.mp hx
    rw [harr, if_pos (by norm_num)]

/-- Witness for C7: the constant all-white and all-black resized arrays, and
the threshold read off at cell (0, 0) of the all-black image. -/
theorem C7_image_threshold_witness :
    ((cell (image_to_8x8 (fun _ _ => 0)) 0 0 = 1 ↔ ((0 : Nat) : ℚ) / 255 < 7 / 10) ∧
     (cell (image_to_8x8 (fun _ _ => 0)) 0 0 = 0 ↔ ¬ ((0 : Nat) : ℚ) / 255 < 7 / 10)) ∧
    image_to_8x8 (fun _ _ => 255) = List.replicate 8 (List.replicate 8 0) ∧
    image_to_8x8 (fun _ _ => 0) = List.replicate 8 (List.replicate 8 1) :=
  ⟨C7_image_threshold.1 (fun _ _ => 0) 0 (by decide) 0 (by decide),
   C7_image_threshold.2.1 (fun _ _ => 255) (fun _ _ => rfl),
   C7_image_threshold.2.2 (fun _ _ => 0) (fun _ _ => rfl)⟩

end MatrixApp
